import Mathlib

/-!
Verification of the component-graph extraction and diagram-rendering pipeline
of the `uiflowchartcreator` repository (`src/utils/flowParser.ts`).

The pipeline is shallowly embedded: strings are modelled as Lean `String`s
(operated on through their `List Char` data), the JavaScript insertion-ordered
object keyed by component path is modelled as an association list with
in-place overwrite, and the two effectful recursions (directory traversal and
recursive node emission) are modelled with explicit fuel via `Nat.rec`, so
every definition computes inside the kernel.  A `none` result of a fuelled
function means the fuel ran out; all theorems either quantify over fuel or
supply enough of it.
-/

namespace UIFlow

/-! ### Character classes and string primitives (JS semantics, ASCII fragment)

The repository only ever manipulates ASCII path and source text, so the
JavaScript character classes `\w`, `\s`, `[a-zA-Z0-9]` and `toLowerCase` are
modelled on the ASCII range.
-/

/-- JS regex `\w`: ASCII letters, digits, underscore. -/
def isWordChar (c : Char) : Bool :=
  ('a' ≤ c && c ≤ 'z') || ('A' ≤ c && c ≤ 'Z') || ('0' ≤ c && c ≤ '9') || c = '_'

/-- JS regex `\s` (ASCII fragment): space, tab, LF, CR, vertical tab, form feed. -/
def isJsSpace (c : Char) : Bool :=
  c = ' ' || c = '\t' || c = '\n' || c = '\x0d' || c = '\x0b' || c = '\x0c'

/-- The class `[a-zA-Z0-9]`, the class kept by the node-identifier replacement. -/
def isAlnum (c : Char) : Bool :=
  ('a' ≤ c && c ≤ 'z') || ('A' ≤ c && c ≤ 'Z') || ('0' ≤ c && c ≤ '9')

/-- Substring containment on character lists (JS `String.prototype.includes`). -/
def listIncludes (hay pat : List Char) : Bool :=
  (List.range (hay.length + 1)).any (fun i => pat.isPrefixOf (hay.drop i))

/-- JS `String.prototype.includes`. -/
def strIncludes (s pat : String) : Bool := listIncludes s.data pat.data

/-- JS `String.prototype.toLowerCase` on the ASCII fragment. -/
def jsToLower (s : String) : String :=
  ⟨s.data.map (fun c => if 'A' ≤ c && c ≤ 'Z' then Char.ofNat (c.toNat + 32) else c)⟩

/-- JS `String.prototype.endsWith`. -/
def jsEndsWith (s suffix : String) : Bool := suffix.data.isSuffixOf s.data

/-- JS `String.prototype.trim` (ASCII whitespace fragment). -/
def jsTrim (cs : List Char) : List Char :=
  ((cs.dropWhile isJsSpace).reverse.dropWhile isJsSpace).reverse

/-- JS `name.split(".")[0]`: the prefix of the string before its first dot
(the whole string when it has no dot). -/
def splitHeadDot (s : String) : String := ⟨s.data.takeWhile (· ≠ '.')⟩

/-! ### Node.js `path.posix` model

`flowParser.ts` uses `path.join` and `path.dirname`.  The embedding follows
Node's posix implementations on the relative, `/`-separated paths the
pipeline produces: `join` concatenates the non-empty parts with `/` and
normalizes (dropping `.` and empty segments, resolving `..` against a
preceding segment, keeping leading `..`s of a relative path). -/

/-- Split a character list on `/`. -/
def splitSlash (cs : List Char) : List (List Char) :=
  cs.foldr
    (fun c acc =>
      match acc with
      | [] => if c = '/' then [[], []] else [[c]]
      | seg :: rest => if c = '/' then [] :: (seg :: rest) else (c :: seg) :: rest)
    [[]]

/-- One step of Node's `normalizeString`: fold a segment onto the resolved
stack (`allowAboveRoot` is true for relative paths, the only case the
pipeline exercises). -/
def normStep (acc : List (List Char)) (seg : List Char) : List (List Char) :=
  if seg = [] || seg = ['.'] then acc
  else if seg = ['.', '.'] then
    match acc.getLast? with
    | some l => if l = ['.', '.'] then acc ++ [seg] else acc.dropLast
    | none => acc ++ [seg]
  else acc ++ [seg]

/-- Node `path.posix.normalize` restricted to relative paths: resolve `.`,
`..` and empty segments, rejoin with `/`, empty result becomes `"."`. -/
def pathNormalize (s : String) : String :=
  let segs := (splitSlash s.data).foldl normStep []
  match segs with
  | [] => "."
  | s0 :: rest => ⟨rest.foldl (fun acc seg => acc ++ '/' :: seg) s0⟩

/-- Node `path.posix.join` on two parts: join the non-empty parts with `/`
and normalize; all-empty input yields `"."`. -/
def pathJoin (a b : String) : String :=
  let parts := [a, b].filter (· ≠ "")
  match parts with
  | [] => "."
  | p :: rest => pathNormalize (rest.foldl (fun acc q => acc ++ "/" ++ q) p)

/-- Node `path.posix.join` on three parts (used to resolve import targets). -/
def pathJoin3 (a b c : String) : String :=
  let parts := [a, b, c].filter (· ≠ "")
  match parts with
  | [] => "."
  | p :: rest => pathNormalize (rest.foldl (fun acc q => acc ++ "/" ++ q) p)

/-- Node `path.posix.dirname`: the path up to the last separator that is
followed by a non-separator, never considering index 0; no such separator
yields `"."` (or `"/"` for a rooted path). -/
def pathDirname (p : String) : String :=
  if p = "" then "."
  else
    let cs := p.data
    let hasRoot := cs.head? = some '/'
    -- indices n-1 .. 1, scanned from the end: skip trailing slashes, then
    -- find the next slash; `rest` keeps indices 1 .. end in original order.
    let tailRev := (cs.drop 1).reverse
    let afterSkip := tailRev.dropWhile (· = '/')
    let found := afterSkip.dropWhile (· ≠ '/')
    if found = [] then
      if hasRoot then "/" else "."
    else
      let e := found.length  -- original index of the separator found
      if hasRoot && e = 1 then "//" else ⟨cs.take e⟩

/-! ### Component roles (`getComponentType`, flowParser.ts lines 120–147) -/

/-- The `type` field of `ComponentInfo`: `"page" | "layout" | "component"`. -/
inductive CType where
  | page
  | layout
  | component
deriving DecidableEq, Repr

/-- The literal string of a role, as interpolated into the diagram. -/
def typeStr : CType → String
  | .page => "page"
  | .layout => "layout"
  | .component => "component"

/-- Classification, `getComponentType` from flowParser.ts: the `"app"`, `"meals"` and
`"header"` tests lower-case the path first; the `"pages"`, `"views"` and
`"layouts"` tests run on the path as given. -/
def getComponentType (componentPath : String) : CType :=
  if strIncludes (jsToLower componentPath) "app" then .page
  else if strIncludes componentPath "pages" || strIncludes componentPath "views"
      || strIncludes (jsToLower componentPath) "meals" then .page
  else if strIncludes componentPath "layouts"
      || strIncludes (jsToLower componentPath) "header" then .layout
  else .component

/-! ### Import extractor (flowParser.ts lines 65–87)

The scanner models the JS global regex
`import\s+(\w+|\{[^}]+\})\s+from\s+['"]([^'"]+)['"]`
applied left-to-right, non-overlapping.  For this particular pattern greedy
matching never backtracks (every quantified class is disjoint from the
character that must follow it, and the two alternatives of group 1 start
with disjoint characters), so the matcher below is an exact model. -/

/-- Match a literal prefix, returning the remainder. -/
def dropLit (lit cs : List Char) : Option (List Char) :=
  if lit.isPrefixOf cs then some (cs.drop lit.length) else none

/-- Pattern `\s+`: at least one JS whitespace character, consumed greedily. -/
def spaces1 (cs : List Char) : Option (List Char) :=
  match cs with
  | c :: rest => if isJsSpace c then some (rest.dropWhile isJsSpace) else none
  | [] => none

/-- Group 1, `(\w+|\{[^}]+\})`: a word run, or a brace group with a
non-empty `}`-free body.  Returns the raw capture (braces included). -/
def matchGroup1 (cs : List Char) : Option (List Char × List Char) :=
  match cs with
  | '{' :: rest =>
    let body := rest.takeWhile (· ≠ '}')
    match body, rest.dropWhile (· ≠ '}') with
    | [], _ => none
    | _, '}' :: tl => some ('{' :: body ++ ['}'], tl)
    | _, _ => none
  | c :: rest =>
    if isWordChar c then some (c :: rest.takeWhile isWordChar, rest.dropWhile isWordChar)
    else none
  | [] => none

/-- A single quote character from the class `['"]` (either kind, and the
closing quote need not match the opening one, exactly as in the regex). -/
def matchQuote (cs : List Char) : Option (List Char) :=
  match cs with
  | c :: rest => if c = '\'' || c = '"' then some rest else none
  | [] => none

/-- Group 2, `([^'"]+)`: a non-empty run free of both quote characters. -/
def matchGroup2 (cs : List Char) : Option (List Char × List Char) :=
  match cs with
  | c :: rest =>
    if c = '\'' || c = '"' then none
    else some (c :: rest.takeWhile (fun d => ¬(d = '\'' || d = '"')),
               rest.dropWhile (fun d => ¬(d = '\'' || d = '"')))
  | [] => none

/-- Try the whole import pattern at the start of `cs`; on success return the
two captures and the remainder after the match. -/
def matchImportAt (cs : List Char) : Option ((List Char × List Char) × List Char) := do
  let cs1 ← dropLit "import".data cs
  let cs2 ← spaces1 cs1
  let (g1, cs3) ← matchGroup1 cs2
  let cs4 ← spaces1 cs3
  let cs5 ← dropLit "from".data cs4
  let cs6 ← spaces1 cs5
  let cs7 ← matchQuote cs6
  let (g2, cs8) ← matchGroup2 cs7
  let cs9 ← matchQuote cs8
  pure ((g1, g2), cs9)

/-- Left-to-right non-overlapping scan (the `g` flag): on failure advance one
character, on success continue after the match.  Fuel bounds the number of
scan steps; each step strictly consumes input, so fuel equal to the input
length is always enough. -/
def extractScan : Nat → List Char → List (List Char × List Char)
  | 0, _ => []
  | _ + 1, [] => []
  | fuel + 1, c :: rest =>
    match matchImportAt (c :: rest) with
    | some (pr, rem) => pr :: extractScan fuel rem
    | none => extractScan fuel rest

/-- Strip `{`/`}` and trim, as `importedComponent.replace(/[{}]/g, "").trim()`. -/
def cleanImport (g1 : List Char) : String :=
  ⟨jsTrim (g1.filter (fun c => ¬(c = '{' || c = '}')))⟩

/-- The import extractor of `parseUIFlow`: every regex match of the import
pattern in source order, as (cleaned symbol, path literal) pairs. -/
def extractImports (content : String) : List (String × String) :=
  (extractScan content.data.length content.data).map
    (fun pr => (cleanImport pr.1, ⟨pr.2⟩))

/-! ### Graph builder (`parseUIFlow` / `processContents`, flowParser.ts lines 18–118)

A `RepoItem` is a `RepoContents` record together with the result of the one
data-source operation the traversal performs on it: a directory item carries
the listing the recursive `fetchLocalRepoContents` / `fetchGitHubRepoContents`
call would return, and a file item carries its content as an `Option` — in
local mode `none` models an absent `item.content` (the code substitutes
`""`), in remote mode `none` models a failed `axios.get` download (the code
logs and `continue`s). -/

/-- A source item together with its data-source responses. -/
inductive RepoItem where
  | file (name : String) (content : Option String)
  | dir (name : String) (children : List RepoItem)
deriving Repr

/-- A map entry's payload before hierarchy linking: the fields of
`ComponentInfo` that the file-processing pass fills in (`children` is
represented separately, by the linking relation). -/
structure RawComp where
  name : String
  type : CType
  filePath : String
  imports : List String
deriving DecidableEq, Repr

/-- The `components` object: an insertion-ordered string-keyed map.
Assigning to an existing key overwrites in place (keeping its position);
assigning a fresh key appends. -/
def setKey (m : List (String × RawComp)) (k : String) (v : RawComp) :
    List (String × RawComp) :=
  if m.any (fun p => p.1 = k) then
    m.map (fun p => if p.1 = k then (k, v) else p)
  else m ++ [(k, v)]

/-- Does an `item.name` end with `.` followed by one of the requested
extensions (`fileExtensions.some(ext => item.name.endsWith('.' + ext))`)? -/
def extMatches (exts : List String) (name : String) : Bool :=
  exts.any (fun e => jsEndsWith name ("." ++ e))

/-- Processing of one file item (flowParser.ts lines 34–87): filter by
extension, obtain content (local: `item.content || ""`; remote: skip the
file when the download failed), then register the component keyed by
`join(currentPath, name-before-first-dot)` with its resolved import targets. -/
def fileStep (isLocal : Bool) (exts : List String) (name : String)
    (content? : Option String) (currentPath : String)
    (m : List (String × RawComp)) : List (String × RawComp) :=
  if extMatches exts name then
    match (if isLocal then some (content?.getD "") else content?) with
    | none => m
    | some content =>
      let componentName := splitHeadDot name
      let componentPath := pathJoin currentPath componentName
      setKey m componentPath
        { name := componentName
          type := getComponentType componentPath
          filePath := pathJoin currentPath name
          imports := (extractImports content).map
            (fun pr => pathJoin3 currentPath (pathDirname pr.2) pr.1) }
  else m

/-- One directory level of `processContents`: fold the item list in order,
recursing into directories through `recurse` (the same traversal one fuel
level down). -/
def processLevel (recurse : List RepoItem → String → List (String × RawComp) →
    List (String × RawComp)) (isLocal : Bool) (exts : List String) :
    List RepoItem → String → List (String × RawComp) → List (String × RawComp)
  | [], _, m => m
  | .file name content? :: rest, currentPath, m =>
    processLevel recurse isLocal exts rest currentPath
      (fileStep isLocal exts name content? currentPath m)
  | .dir name children :: rest, currentPath, m =>
    processLevel recurse isLocal exts rest currentPath
      (recurse children (pathJoin currentPath name) m)

/-- Traversal `processContents`, fuelled by directory depth.  With fuel at least the
tree depth plus one this is exactly the traversal; at fuel 0 the map is
returned unchanged. -/
def processItems (isLocal : Bool) (exts : List String) (fuel : Nat) :
    List RepoItem → String → List (String × RawComp) → List (String × RawComp) :=
  Nat.rec (motive := fun _ => List RepoItem → String → List (String × RawComp) →
      List (String × RawComp))
    (fun _ _ m => m)
    (fun _ ih => processLevel ih isLocal exts)
    fuel

/-- The default `fileExtensions` argument of `parseUIFlow`. -/
def defaultExts : List String := ["js", "jsx", "ts", "tsx"]

/-- The full component map of one build: `processContents(contents)` started
at the empty map and path `""`. -/
def buildMap (isLocal : Bool) (exts : List String) (fuel : Nat)
    (contents : List RepoItem) : List (String × RawComp) :=
  processItems isLocal exts fuel contents "" []

/-! ### Hierarchy linking and root collection (flowParser.ts lines 104–117) -/

/-- The root-collection pass: `Object.values(components)` in insertion
order, pushing every component whose `imports` array is empty. -/
def rootEntries (m : List (String × RawComp)) : List (String × RawComp) :=
  m.foldl (fun acc p => if p.2.imports.length = 0 then acc ++ [p] else acc) []

/-- The children pushed onto the component keyed `t` during hierarchy
linking: one push of the importing component per entry of its `imports`
equal to `t`, importers in map order (meaningful when `t` is a key of `m`;
an unresolved target receives no pushes because `components[importPath]`
is then undefined). -/
def childEntries (m : List (String × RawComp)) (t : String) :
    List (String × RawComp) :=
  m.foldl (fun acc p => acc ++ (p.2.imports.filter (fun ip => ip = t)).map
    (fun _ => p)) []

/-- Serialized `ComponentInfo`: the value shape of `parseUIFlow`'s JSON
output and the input shape of `generateMermaidFlowchart`. -/
structure ComponentInfo where
  name : String
  type : CType
  filePath : String
  imports : List String
  children : List ComponentInfo
deriving Repr

/-- Materialize a list of map entries into `ComponentInfo` values through
`mat` (all-or-nothing, preserving order). -/
def matList (mat : String → RawComp → Option ComponentInfo) :
    List (String × RawComp) → Option (List ComponentInfo)
  | [] => some []
  | p :: rest =>
    match mat p.1 p.2 with
    | some x =>
      match matList mat rest with
      | some xs => some (x :: xs)
      | none => none
    | none => none

/-- Materialize the component keyed `k`: its own fields plus recursively
materialized children (the components whose imports resolve to `k`), with
fuel bounding the recursion depth.  On an acyclic link relation this is the
value `JSON.stringify` serializes. -/
def matComp (m : List (String × RawComp)) (fuel : Nat) :
    String → RawComp → Option ComponentInfo :=
  Nat.rec (motive := fun _ => String → RawComp → Option ComponentInfo)
    (fun _ _ => none)
    (fun _ ih k c =>
      match matList ih (childEntries m k) with
      | some ch => some ⟨c.name, c.type, c.filePath, c.imports, ch⟩
      | none => none)
    fuel

/-- The forest `parseUIFlow` returns (after `JSON.parse`): the root
components, each materialized with its linked children. -/
def parseForest (isLocal : Bool) (exts : List String) (buildFuel matFuel : Nat)
    (contents : List RepoItem) : Option (List ComponentInfo) :=
  let m := buildMap isLocal exts buildFuel contents
  matList (matComp m matFuel) (rootEntries m)

/-! ### Diagram renderer (`generateMermaidFlowchart`, flowParser.ts lines 149–235) -/

/-- Identifier derivation `component.name.replace(/[^a-zA-Z0-9]/g, "_")`: every character outside
`[a-zA-Z0-9]` is replaced by an underscore. -/
def nodeId (name : String) : String :=
  ⟨name.data.map (fun c => if isAlnum c then c else '_')⟩

/-- The node shape chosen by role (the `switch` on `component.type`). -/
def nodeStyle : CType → String
  | .page => "(( ))"
  | .layout => "\x7b\x7b \x7d\x7d"
  | .component => "[/ /]"

/-- Indentation `"  ".repeat(depth)`. -/
def indentStr (depth : Nat) : String := ⟨(List.replicate depth "  ".data).flatten⟩

/-- The single line `createNode` appends for one component. -/
def nodeLine (c : ComponentInfo) (depth : Nat) : String :=
  indentStr depth ++ nodeId c.name ++ nodeStyle c.type
    ++ "[\"" ++ c.name ++ " (" ++ typeStr c.type ++ ")\"]\n"

/-- Lookup `componentMap.get`: the lookup map is built by `Map.set` over the
top-level list, so the last binding of a name wins. -/
def mapFind (cmap : List (String × ComponentInfo)) (k : String) :
    Option ComponentInfo :=
  (cmap.reverse.find? (fun p => p.1 = k)).map Prod.snd

/-- The child loop of `createNode`: look each child of the current node up
by name in the component map, recurse (via `f`, the emitter one fuel level
down) when found, silently skip when not. -/
def emitChildren (f : ComponentInfo → Nat → Option String)
    (cmap : List (String × ComponentInfo)) :
    List ComponentInfo → Nat → Option String
  | [], _ => some ""
  | child :: rest, depth =>
    match mapFind cmap child.name with
    | some childComponent =>
      match f childComponent depth with
      | some s =>
        match emitChildren f cmap rest depth with
        | some t => some (s ++ t)
        | none => none
      | none => none
    | none => emitChildren f cmap rest depth

/-- Emission `createNode`: emit the node's line, then its children depth-first
(each child resolved through the name map).  The source recursion carries
no visited set; fuel bounds the recursion depth, and `none` means the
fuel was exhausted — i.e. the source would still be recursing. -/
def createNode (cmap : List (String × ComponentInfo)) (fuel : Nat) :
    ComponentInfo → Nat → Option String :=
  Nat.rec (motive := fun _ => ComponentInfo → Nat → Option String)
    (fun _ _ => none)
    (fun _ ih c depth =>
      match emitChildren ih cmap c.children (depth + 1) with
      | some rest => some (nodeLine c depth ++ rest)
      | none => none)
    fuel

/-- Edge labels, `determineRelationshipType` (flowParser.ts lines 237–251). -/
def determineRelationshipType (parent child : ComponentInfo) : String :=
  if parent.type = .layout && child.type = .page then "contains"
  else if parent.type = .page && child.type = .component then "uses"
  else if parent.type = .component && child.type = .component then "composes"
  else "relates to"

/-- The display roots of the renderer: top-level components that appear as
no top-level component's child (by name). -/
def displayRoots (components : List ComponentInfo) : List ComponentInfo :=
  components.filter (fun c =>
    ¬ components.any (fun c2 => c2.children.any (fun child => child.name = c.name)))

/-- Emit all display-root subtrees in order. -/
def emitRoots (cmap : List (String × ComponentInfo)) (fuel : Nat) :
    List ComponentInfo → Option String
  | [] => some ""
  | c :: rest =>
    match createNode cmap fuel c 0 with
    | some s =>
      match emitRoots cmap fuel rest with
      | some t => some (s ++ t)
      | none => none
    | none => none

/-- The edge block: one `parent -->|label| child` line per (component,
child) pair of the whole top-level list, in order. -/
def edgeLines (components : List ComponentInfo) : String :=
  ⟨(components.map (fun c => (c.children.map (fun child =>
      ("  " ++ nodeId c.name ++ " -->|" ++ determineRelationshipType c child
        ++ "| " ++ nodeId child.name ++ "\n").data)).flatten)).flatten⟩

/-- The chart text before validation: header, node declarations from the
display roots, then the edge block. -/
def buildChart (components : List ComponentInfo) (fuel : Nat) : Option String :=
  match emitRoots (components.map (fun c => (c.name, c))) fuel
      (displayRoots components) with
  | some nodes => some ("flowchart TD\n" ++ nodes ++ edgeLines components)
  | none => none

/-- The regex `/\[.*\]/`: some `[` is followed, with no line terminator in
between, by some `]`.  (`.` does not match `\n`/`\r`; the chart only ever
contains `\n`.) -/
def hasNodeBracket : List Char → Bool
  | [] => false
  | '[' :: rest =>
    let seg := rest.takeWhile (fun c => ¬(c = ']' || c = '\n' || c = '\x0d'))
    if (rest.drop seg.length).head? = some ']' then true else hasNodeBracket rest
  | _ :: rest => hasNodeBracket rest

/-- The three structural checks of flowParser.ts lines 217–225, in order;
an error carries the message of the `throw new Error(...)` wrapped the way
the `catch` block re-throws it. -/
def validateChart (chart : String) : Except String String :=
  if ¬ strIncludes chart "flowchart TD" then
    .error ("Failed to generate valid Mermaid.js chart: Error: "
      ++ "Missing flowchart declaration")
  else if ¬ hasNodeBracket chart.data then
    .error ("Failed to generate valid Mermaid.js chart: Error: "
      ++ "Missing node definitions")
  else if ¬ (strIncludes chart "-->" || strIncludes chart "--") then
    .error ("Failed to generate valid Mermaid.js chart: Error: "
      ++ "Missing relationship definitions")
  else .ok chart

instance : DecidableEq (Except String String) := fun a b =>
  match a, b with
  | .ok x, .ok y =>
    if h : x = y then .isTrue (by rw [h]) else .isFalse (by simp [h])
  | .error x, .error y =>
    if h : x = y then .isTrue (by rw [h]) else .isFalse (by simp [h])
  | .ok _, .error _ => .isFalse (by simp)
  | .error _, .ok _ => .isFalse (by simp)

/-- Renderer `generateMermaidFlowchart`: build the chart text, then validate;
`some (.error e)` is the thrown `McpError`, `some (.ok s)` the returned
chart, `none` exhausted fuel (the source recursion still running). -/
def generateMermaidFlowchart (components : List ComponentInfo) (fuel : Nat) :
    Option (Except String String) :=
  (buildChart components fuel).map validateChart

/-! ### Claim-side definitions (worded from the specification, for comparison
with the source embedding) and concrete inputs used by the claims -/

/-- The classifier as the specification words it: ordered, case-insensitive
substring tests against the full component path, first match wins. -/
def classifyClaimed (p : String) : CType :=
  let low := jsToLower p
  if strIncludes low "app" then .page
  else if strIncludes low "pages" || strIncludes low "views"
      || strIncludes low "meals" then .page
  else if strIncludes low "layouts" || strIncludes low "header" then .layout
  else .component

/-- The classifier rules with their actual case sensitivity (amended claim):
`"app"`, `"meals"` and `"header"` case-insensitive, `"pages"`, `"views"` and
`"layouts"` case-sensitive; evaluated top to bottom, first match wins. -/
def amendedRules : List ((String → Bool) × CType) :=
  [(fun p => strIncludes (jsToLower p) "app", .page),
   (fun p => strIncludes p "pages", .page),
   (fun p => strIncludes p "views", .page),
   (fun p => strIncludes (jsToLower p) "meals", .page),
   (fun p => strIncludes p "layouts", .layout),
   (fun p => strIncludes (jsToLower p) "header", .layout)]

/-- First-match-wins evaluation of the amended rule list, defaulting to
Generic (component). -/
def classifyAmended (p : String) : CType :=
  ((amendedRules.find? (fun r => r.1 p)).map Prod.snd).getD .component

/-- The node identifier as the claim words it: the component name with all
non-alphanumeric characters stripped. -/
def claimedNodeId (name : String) : String := ⟨name.data.filter isAlnum⟩

/-- The worked end-to-end input of the specification: `pages/Home.tsx`,
which imports `components/Button`, and `components/Button.tsx` with no
statements at all. -/
def c2Items : List RepoItem :=
  [.dir "pages"
    [.file "Home.tsx" (some "import Button from \"../components/Button\"")],
   .dir "components" [.file "Button.tsx" (some "")]]

/-- The chart the worked example renders to. -/
def c2Chart : String :=
  "flowchart TD\nButton[/ /][\"Button (component)\"]\n"
    ++ "  Button -->|relates to| Home\n"

/-- A single file whose only import does not resolve to any known
component (for the root-marking claim). -/
def c1Items : List RepoItem := [.file "Lone.tsx" (some "import X from './X'")]

/-- Two files where `B.ts` imports `A` twice through different statement
shapes, both resolving to the known component `A` (for the children-as-set
claim). -/
def c9Items : List RepoItem :=
  [.file "A.ts" (some ""),
   .file "B.ts" (some "import A from './A'\nimport \x7bA\x7d from './A'")]

/-- The component record the build of `c9Items` derives for `B.ts`. -/
def c9BRaw : RawComp :=
  { name := "B", type := .component, filePath := "B.ts", imports := ["A", "A"] }

/-- The serialized Home entry as it appears inside Button's children. -/
def c4Home : ComponentInfo :=
  ⟨"Home", .page, "pages/Home.tsx", ["components/Button"], []⟩

/-- The serialized Button root of the worked example's forest. -/
def c4Btn : ComponentInfo :=
  ⟨"Button", .component, "components/Button.tsx", [], [c4Home]⟩

/-- A one-root forest whose root's sole child name is unresolvable in the
renderer's lookup map: renders successfully with one node and one edge. -/
def c4DemoForest : List ComponentInfo := [c4Btn]

/-- A leaf stub as it appears inside a `children` array. -/
def stubComp (n : String) : ComponentInfo := ⟨n, .component, n, [], []⟩

/-- Root of the cyclic renderer input: `R`'s child resolves to `A`. -/
def cycR : ComponentInfo := ⟨"R", .component, "R", [], [stubComp "A"]⟩

/-- Component `A`: its child resolves to `B`. -/
def cycA : ComponentInfo := ⟨"A", .component, "A", [], [stubComp "B"]⟩

/-- Component `B`: its child resolves back to `A`, closing the cycle reachable from the
display root `R`. -/
def cycB : ComponentInfo := ⟨"B", .component, "B", [], [stubComp "A"]⟩

/-- The cyclic top-level forest `[R, A, B]`. -/
def cycForest : List ComponentInfo := [cycR, cycA, cycB]

/-- The renderer's name lookup map over the cyclic forest. -/
def cycMap : List (String × ComponentInfo) := cycForest.map (fun c => (c.name, c))

/-- Reachability from a starting set along the renderer's recursion: from a
component to any of its children as resolved by name through the lookup
map.  This is the relation `createNode` follows from the display roots. -/
inductive RReach (cmap : List (String × ComponentInfo))
    (roots : List ComponentInfo) : ComponentInfo → Prop where
  | root {c} : c ∈ roots → RReach cmap roots c
  | step {c child c'} : RReach cmap roots c → child ∈ c.children →
      mapFind cmap child.name = some c' → RReach cmap roots c'

/-! ### Helper lemmas -/

/-- A fold that conditionally pushes elements equals appending the filtered
list (shape of both the root-collection and the child-linking pass). -/
theorem foldl_push_filter {α : Type} (cond : α → Prop) [DecidablePred cond]
    (l : List α) : ∀ acc : List α,
    l.foldl (fun acc p => if cond p then acc ++ [p] else acc) acc
      = acc ++ l.filter (fun p => decide (cond p)) := by
  induction l with
  | nil => intro acc; simp
  | cons p rest ih =>
    intro acc
    simp only [List.foldl_cons, List.filter_cons]
    by_cases h : cond p
    · simp [h, ih]
    · simp [h, ih]

/-! ### Claim C1 -/

/-- C1, as stated, is false on the code: in this single-file build the only
component's import list is `["X"]`, no entry of which is a key of the
component map (its `importTargets` resolved to zero known components), yet
the root-collection pass collects nothing — the file's component does not
appear at the top level of the forest. -/
theorem c1_counterexample :
    ((buildMap true defaultExts 1 c1Items).map (fun p => p.2.imports) = [["X"]])
    ∧ ((buildMap true defaultExts 1 c1Items).all
        (fun p => p.2.imports.all (fun t =>
          !(buildMap true defaultExts 1 c1Items).any (fun q => q.1 = t))) = true)
    ∧ rootEntries (buildMap true defaultExts 1 c1Items) = [] := by
  decide

/-- C1 (amended): a component is collected as a root of the output forest
if and only if its `importTargets` sequence is empty; whether non-empty
targets of imports resolve to known components is irrelevant to root marking. -/
theorem c1_roots_iff_no_imports (m : List (String × RawComp))
    (p : String × RawComp) :
    p ∈ rootEntries m ↔ p ∈ m ∧ p.2.imports = [] := by
  unfold rootEntries
  rw [foldl_push_filter]
  simp [List.mem_filter, List.length_eq_zero]

/-! ### Claim C2 -/

set_option maxRecDepth 10000 in
/-- C2: on the worked example (`pages/Home.tsx` importing
`components/Button`, `components/Button.tsx` importing nothing), Home is
linked as a child of Button and not vice versa, Button is the sole display
root, and the rendered diagram carries exactly one edge,
`Button -->|relates to| Home`. -/
theorem c2_worked_example :
    ((childEntries (buildMap true defaultExts 3 c2Items) "components/Button").map
        Prod.fst = ["pages/Home"])
    ∧ childEntries (buildMap true defaultExts 3 c2Items) "pages/Home" = []
    ∧ ((parseForest true defaultExts 3 3 c2Items).map
        (fun l => (displayRoots l).map (fun c => c.name)) = some ["Button"])
    ∧ ((parseForest true defaultExts 3 3 c2Items).map
        (fun l => l.map (fun c => (c.name, c.children.map (fun ch => ch.name))))
       = some [("Button", ["Home"])])
    ∧ ((parseForest true defaultExts 3 3 c2Items).bind
        (fun l => generateMermaidFlowchart l 3)) = some (.ok c2Chart) := by
  decide

/-! ### Claim C5 -/

/-- C5: the extractor yields exactly `("Foo", "./Foo")` for a default-style
statement, exactly `("A, B", "./shared")` (braces stripped, unsplit) for
a named-import group, keeps duplicate matches in source order, and yields
nothing on import-free content. -/
theorem c5_extractor :
    extractImports "import Foo from './Foo'" = [("Foo", "./Foo")]
    ∧ extractImports "import \x7b A, B \x7d from './shared'" = [("A, B", "./shared")]
    ∧ extractImports "import A from './A'\nimport A from './A'"
        = [("A", "./A"), ("A", "./A")]
    ∧ extractImports "const x = 1" = [] := by
  decide

/-! ### Claim C6 -/

/-- C6: a file item whose name does not end in a dot followed by one of the
requested extensions leaves the component map untouched (no Component keyed
by it is produced, in any traversal context), while the check is a plain
suffix match, so for extension `"ts"` both `Foo.ts` and `Foo.test.ts` are
processed — as the concrete build of `[Foo.test.ts, README.md]` shows. -/
theorem c6_extension_filter :
    (∀ (recurse : List RepoItem → String → List (String × RawComp) →
        List (String × RawComp))
       (isLocal : Bool) (exts : List String) (name : String)
       (content? : Option String) (rest : List RepoItem)
       (currentPath : String) (m : List (String × RawComp)),
       extMatches exts name = false →
       processLevel recurse isLocal exts (.file name content? :: rest)
           currentPath m
         = processLevel recurse isLocal exts rest currentPath m)
    ∧ extMatches ["ts"] "Foo.ts" = true
    ∧ extMatches ["ts"] "Foo.test.ts" = true
    ∧ ((buildMap true ["ts"] 1
        [.file "Foo.test.ts" (some ""), .file "README.md" (some "")]).map
          Prod.fst = ["Foo"]) := by
  refine ⟨?_, by decide, by decide, by decide⟩
  intro recurse isLocal exts name content? rest currentPath m h
  simp [processLevel, fileStep, h]

/-- Witness for C6 at a concrete input: `README.md` does not match
extension list `["ts"]`, and processing it is a no-op. -/
theorem c6_witness :
    extMatches ["ts"] "README.md" = false
    ∧ processLevel (fun _ _ m => m) true ["ts"]
        [.file "README.md" (some "x")] "" []
      = processLevel (fun _ _ m => m) true ["ts"] [] "" [] :=
  ⟨by decide,
   c6_extension_filter.1 (fun _ _ m => m) true ["ts"] "README.md"
     (some "x") [] "" [] (by decide)⟩

/-! ### Claim C7 -/

/-- C7: in remote mode a failed content fetch for one file (`none`) skips
exactly that file — the map is as if the item were absent and the traversal
continues with the remaining items — as the concrete two-file build (failed
`Bad.ts`, successful `Good.ts`) also shows: the build still produces the
graph over the remaining files. -/
theorem c7_remote_fetch_skip :
    (∀ (recurse : List RepoItem → String → List (String × RawComp) →
        List (String × RawComp))
       (exts : List String) (name : String) (rest : List RepoItem)
       (currentPath : String) (m : List (String × RawComp)),
       processLevel recurse false exts (.file name none :: rest) currentPath m
         = processLevel recurse false exts rest currentPath m)
    ∧ ((buildMap false ["ts"] 1
        [.file "Bad.ts" none, .file "Good.ts" (some "")]).map Prod.fst
       = ["Good"]) := by
  refine ⟨?_, by decide⟩
  intro recurse exts name rest currentPath m
  simp [processLevel, fileStep]

/-! ### Claim C3 -/

/-- C3, as stated, is false on the code: the claim's rules are
case-insensitive throughout, but the code's `"pages"` test is
case-sensitive, so the two classifiers disagree on `"src/PAGES/Home"`
(Generic according to the code, Page according to the claim). -/
theorem c3_counterexample :
    getComponentType "src/PAGES/Home" = CType.component
    ∧ classifyClaimed "src/PAGES/Home" = CType.page
    ∧ getComponentType "src/PAGES/Home" ≠ classifyClaimed "src/PAGES/Home" := by
  decide

/-- C3 (amended): classification is by ordered substring tests, first match
wins, where the `"app"`, `"meals"` and `"header"` tests are case-insensitive
but the `"pages"`, `"views"` and `"layouts"` tests are case-sensitive; the
claim's four concrete examples all hold. -/
theorem c3_classifier_amended :
    (∀ p : String, getComponentType p = classifyAmended p)
    ∧ getComponentType "src/pages/Home" = CType.page
    ∧ getComponentType "src/layouts/MainLayout" = CType.layout
    ∧ getComponentType "src/components/Button" = CType.component
    ∧ getComponentType "src/App" = CType.page := by
  refine ⟨?_, by decide, by decide, by decide, by decide⟩
  intro p
  by_cases h1 : strIncludes (jsToLower p) "app" = true <;>
  by_cases h2 : strIncludes p "pages" = true <;>
  by_cases h3 : strIncludes p "views" = true <;>
  by_cases h4 : strIncludes (jsToLower p) "meals" = true <;>
  by_cases h5 : strIncludes p "layouts" = true <;>
  by_cases h6 : strIncludes (jsToLower p) "header" = true <;>
  simp [getComponentType, classifyAmended, amendedRules, List.find?,
    h1, h2, h3, h4, h5, h6]

/-! ### Claim C4 -/

/-- C4: rendering the empty forest fails with the structural-validation
error for missing node declarations (for every fuel — the computation never
recurses), and in general a successfully returned chart has passed all
three structural checks: a malformed chart is never returned. -/
theorem c4_validation :
    (∀ fuel : Nat, generateMermaidFlowchart [] fuel
       = some (.error ("Failed to generate valid Mermaid.js chart: Error: "
           ++ "Missing node definitions")))
    ∧ (∀ (components : List ComponentInfo) (fuel : Nat) (s : String),
        generateMermaidFlowchart components fuel = some (.ok s) →
        strIncludes s "flowchart TD" = true
        ∧ hasNodeBracket s.data = true
        ∧ (strIncludes s "-->" || strIncludes s "--") = true) := by
  constructor
  · intro fuel
    rfl
  · intro components fuel s h
    unfold generateMermaidFlowchart at h
    cases hb : buildChart components fuel with
    | none => rw [hb] at h; cases h
    | some chart =>
      rw [hb] at h
      simp only [Option.map_some'] at h
      unfold validateChart at h
      split_ifs at h with h1 h2 h3
      any_goals cases h
      exact ⟨h1, h2, h3⟩

set_option maxRecDepth 10000 in
/-- Witness for C4 at a concrete successful render: the returned chart of
the worked example satisfies all three structural checks. -/
theorem c4_witness :
    strIncludes c2Chart "flowchart TD" = true
    ∧ hasNodeBracket c2Chart.data = true
    ∧ (strIncludes c2Chart "-->" || strIncludes c2Chart "--") = true :=
  c4_validation.2 c4DemoForest 3 c2Chart (by decide)

/-! ### Claim C8 -/

/-- A list is a Boolean prefix of itself followed by anything. -/
theorem isPrefixOf_append_self (a b : List Char) :
    a.isPrefixOf (a ++ b) = true := by
  induction a with
  | nil => simp [List.isPrefixOf]
  | cons x xs ih => simp [List.isPrefixOf, ih]

/-- Unfolding: at zero fuel the emitter is still recursing. -/
theorem createNode_zero (cmap : List (String × ComponentInfo))
    (c : ComponentInfo) (depth : Nat) : createNode cmap 0 c depth = none := rfl

/-- Unfolding: with fuel left, the emitter produces the node's own line
followed by the emission of its resolved children one level deeper. -/
theorem createNode_succ (cmap : List (String × ComponentInfo)) (fuel : Nat)
    (c : ComponentInfo) (depth : Nat) :
    createNode cmap (fuel + 1) c depth
      = match emitChildren (createNode cmap fuel) cmap c.children (depth + 1) with
        | some rest => some (nodeLine c depth ++ rest)
        | none => none := rfl

/-- C8, as stated, is false on the code: the node identifier replaces each
non-alphanumeric character with an underscore instead of stripping it, so
the component named `My-Button` is emitted with identifier `My_Button`,
not the claimed `MyButton`. -/
theorem c8_counterexample :
    createNode [] 1
        ⟨"My-Button", .component, "components/My-Button.tsx", [], []⟩ 0
      = some "My_Button[/ /][\"My-Button (component)\"]\n"
    ∧ claimedNodeId "My-Button" = "MyButton"
    ∧ nodeId "My-Button" ≠ claimedNodeId "My-Button" := by
  decide

/-- C8 (amended): every emitted node declaration opens with the node's own
line, whose visible label is exactly `<name> (<role>)`, whose identifier is
the component name with every non-alphanumeric character replaced by an
underscore, and whose shape is one of three distinct shape classes chosen
by the component's role. -/
theorem c8_node_emission :
    (∀ (cmap : List (String × ComponentInfo)) (fuel : Nat)
       (c : ComponentInfo) (depth : Nat) (s : String),
       createNode cmap (fuel + 1) c depth = some s →
       (nodeLine c depth).data.isPrefixOf s.data = true)
    ∧ (∀ (c : ComponentInfo) (depth : Nat),
        nodeLine c depth = indentStr depth ++ nodeId c.name ++ nodeStyle c.type
          ++ "[\"" ++ c.name ++ " (" ++ typeStr c.type ++ ")\"]\n")
    ∧ (nodeStyle .page ≠ nodeStyle .layout ∧ nodeStyle .page ≠ nodeStyle .component
        ∧ nodeStyle .layout ≠ nodeStyle .component)
    ∧ (∀ name : String, (nodeId name).data
        = name.data.map (fun ch => if isAlnum ch then ch else '_')) := by
  refine ⟨?_, fun c depth => rfl, by decide, fun name => rfl⟩
  intro cmap fuel c depth s h
  rw [createNode_succ] at h
  cases he : emitChildren (createNode cmap fuel) cmap c.children (depth + 1) with
  | none => rw [he] at h; cases h
  | some rest =>
    rw [he] at h
    cases h
    simp [String.data_append, isPrefixOf_append_self]

/-- Witness for C8 at a concrete emission: the line emitted for a leaf
component is its own node line. -/
theorem c8_witness :
    (nodeLine (stubComp "A") 0).data.isPrefixOf
        "A[/ /][\"A (component)\"]\n".data = true :=
  c8_node_emission.1 [] 0 (stubComp "A") 0 "A[/ /][\"A (component)\"]\n" (by decide)

/-! ### Claim C9 -/

/-- The child-linking fold is the concatenation, over the map in order, of
one copy of each importer per import entry hitting the target. -/
theorem childEntries_eq_bind (m : List (String × RawComp)) (t : String) :
    childEntries m t
      = m.flatMap (fun p => (p.2.imports.filter (fun ip => ip = t)).map (fun _ => p)) := by
  have h : ∀ (l acc : List (String × RawComp)),
      l.foldl (fun acc p =>
          acc ++ (p.2.imports.filter (fun ip => ip = t)).map (fun _ => p)) acc
        = acc ++ l.flatMap (fun p =>
            (p.2.imports.filter (fun ip => ip = t)).map (fun _ => p)) := by
    intro l
    induction l with
    | nil => intro acc; simp
    | cons q rest ih =>
      intro acc
      rw [List.foldl_cons, ih, List.flatMap_cons, List.append_assoc]
  have h0 := h m []
  rw [List.nil_append] at h0
  exact h0

/-- Mapping a constant function produces a replicate. -/
theorem map_const_replicate {α β : Type} (b : β) (l : List α) :
    l.map (fun _ => b) = List.replicate l.length b := by
  induction l with
  | nil => rfl
  | cons x xs ih => simp [List.replicate, ih]

set_option maxRecDepth 10000 in
/-- C9, as stated, is false on the code: `children` is an array that is
pushed once per resolving import, so when `B.ts` imports the known
component `A` through two statements, `B` occurs twice among `A`'s
children, both in the link relation and in the materialized forest. -/
theorem c9_counterexample :
    ((childEntries (buildMap true ["ts"] 1 c9Items) "A").map Prod.fst = ["B", "B"])
    ∧ ¬ ((childEntries (buildMap true ["ts"] 1 c9Items) "A").map Prod.fst).Nodup
    ∧ ((parseForest true ["ts"] 1 2 c9Items).map
        (fun l => l.map (fun c => (c.name, c.children.map (fun ch => ch.name)))))
       = some [("A", ["B", "B"])] := by
  decide

/-- Multiplicity of one importer among a target's linked children: exactly
its number of import entries equal to the target (keys assumed unique, as
the JS object guarantees). -/
theorem count_childEntries (t k : String) :
    ∀ (m : List (String × RawComp)) (c : RawComp),
      (m.map Prod.fst).Nodup → (k, c) ∈ m →
      ((m.flatMap (fun p =>
          (p.2.imports.filter (fun ip => ip = t)).map (fun _ => p))).map
            Prod.fst).count k
        = (c.imports.filter (fun ip => ip = t)).length := by
  intro m
  induction m with
  | nil => intro c _ hmem; cases hmem
  | cons q rest ih =>
    intro c hnd hmem
    rw [List.flatMap_cons, List.map_append, List.count_append]
    have hhead : ((q.2.imports.filter (fun ip => ip = t)).map (fun _ => q)).map Prod.fst
        = List.replicate (q.2.imports.filter (fun ip => ip = t)).length q.1 := by
      rw [List.map_map]
      exact map_const_replicate q.1 _
    have hq1 : q.1 ∉ rest.map Prod.fst := (List.nodup_cons.mp hnd).1
    have hndr : (rest.map Prod.fst).Nodup := (List.nodup_cons.mp hnd).2
    rcases List.mem_cons.mp hmem with heq | hmem'
    · have hq : q = (k, c) := heq.symm
      subst hq
      have hz : ((rest.flatMap (fun p =>
          (p.2.imports.filter (fun ip => ip = t)).map (fun _ => p))).map
            Prod.fst).count k = 0 := by
        apply List.count_eq_zero_of_not_mem
        intro hk
        rcases List.mem_map.mp hk with ⟨p, hp, hpk⟩
        rcases List.mem_flatMap.mp hp with ⟨p', hp', hpp'⟩
        have hpr : p ∈ rest := by
          rcases List.mem_map.mp hpp' with ⟨y, hy, hpe⟩
          exact hpe ▸ hp'
        have hm1 : p.1 ∈ rest.map Prod.fst := List.mem_map_of_mem Prod.fst hpr
        rw [hpk] at hm1
        exact hq1 hm1
      rw [hhead, hz, List.count_replicate_self]
      simp
    · have hkr : k ∈ rest.map Prod.fst := List.mem_map_of_mem Prod.fst hmem'
      have hne : q.1 ≠ k := fun h => hq1 (h ▸ hkr)
      rw [hhead, List.count_replicate]
      simp only [beq_iff_eq, hne, if_false]
      simpa using ih c hndr hmem'

/-- C9 (amended): the `children` collection is an ordered sequence, not a
set: a component appears among another component's children once per entry
of its `importTargets` equal to that component's key, so two import
statements resolving to the same known component yield a duplicated child. -/
theorem c9_children_multiplicity (m : List (String × RawComp)) (t k : String)
    (c : RawComp) (hnd : (m.map Prod.fst).Nodup) (hmem : (k, c) ∈ m) :
    ((childEntries m t).map Prod.fst).count k
      = (c.imports.filter (fun ip => ip = t)).length := by
  rw [childEntries_eq_bind]
  exact count_childEntries t k m c hnd hmem

set_option maxRecDepth 10000 in
/-- Witness for C9 (amended) on the concrete duplicate-import build: `B`
occurs twice among `A`'s children because two of its imports equal `"A"`. -/
theorem c9_witness :
    ((childEntries (buildMap true ["ts"] 1 c9Items) "A").map Prod.fst).count "B"
      = (c9BRaw.imports.filter (fun ip => ip = "A")).length :=
  c9_children_multiplicity (buildMap true ["ts"] 1 c9Items) "A" "B" c9BRaw
    (by decide) (by decide)

/-! ### Claim C10 -/

/-- Resolved-children emission succeeds when the emitter succeeds on every
resolved child. -/
theorem emitChildren_isSome (f : ComponentInfo → Nat → Option String)
    (cmap : List (String × ComponentInfo)) :
    ∀ (l : List ComponentInfo) (depth : Nat),
      (∀ child ∈ l, ∀ cc, mapFind cmap child.name = some cc →
        (f cc depth).isSome = true) →
      (emitChildren f cmap l depth).isSome = true := by
  intro l
  induction l with
  | nil => intro depth _; rfl
  | cons child rest ih =>
    intro depth h
    unfold emitChildren
    cases hf : mapFind cmap child.name with
    | none => exact ih depth (fun c hc cc hcc => h c (List.mem_cons_of_mem _ hc) cc hcc)
    | some cc =>
      have h1 := h child (List.mem_cons_self _ _) cc hf
      cases hfc : f cc depth with
      | none => rw [hfc] at h1; cases h1
      | some s =>
        have h2 := ih depth (fun c hc cc' hcc => h c (List.mem_cons_of_mem _ hc) cc' hcc)
        cases hrest : emitChildren f cmap rest depth with
        | none => rw [hrest] at h2; cases h2
        | some t2 => simp [hfc]

/-- The node emitter terminates on any component from which the resolved
child relation is rank-decreasing, given fuel exceeding the rank. -/
theorem createNode_isSome (cmap : List (String × ComponentInfo))
    (roots : List ComponentInfo) (rank : ComponentInfo → Nat)
    (hrank : ∀ c child c', RReach cmap roots c → child ∈ c.children →
      mapFind cmap child.name = some c' → rank c' < rank c) :
    ∀ (fuel : Nat) (c : ComponentInfo) (depth : Nat),
      RReach cmap roots c → rank c < fuel →
      (createNode cmap fuel c depth).isSome = true := by
  intro fuel
  induction fuel with
  | zero => intro c depth _ hlt; exact absurd hlt (Nat.not_lt_zero _)
  | succ n ih =>
    intro c depth hre hlt
    rw [createNode_succ]
    have hech : (emitChildren (createNode cmap n) cmap c.children
        (depth + 1)).isSome = true := by
      apply emitChildren_isSome
      intro child hch cc hcc
      exact ih cc (depth + 1) (RReach.step hre hch hcc)
        (Nat.lt_of_lt_of_le (hrank c child cc hre hch hcc) (Nat.lt_succ_iff.mp hlt))
    cases he : emitChildren (createNode cmap n) cmap c.children (depth + 1) with
    | none => rw [he] at hech; cases hech
    | some rest => rfl

/-- Display-root emission succeeds when node emission succeeds on every
root. -/
theorem emitRoots_isSome (cmap : List (String × ComponentInfo)) (fuel : Nat) :
    ∀ l : List ComponentInfo,
      (∀ c ∈ l, (createNode cmap fuel c 0).isSome = true) →
      (emitRoots cmap fuel l).isSome = true := by
  intro l
  induction l with
  | nil => intro _; rfl
  | cons c rest ih =>
    intro h
    unfold emitRoots
    have h1 := h c (List.mem_cons_self _ _)
    cases hc : createNode cmap fuel c 0 with
    | none => rw [hc] at h1; cases h1
    | some s =>
      have h2 := ih (fun c' hc' => h c' (List.mem_cons_of_mem _ hc'))
      cases hr : emitRoots cmap fuel rest with
      | none => rw [hr] at h2; cases h2
      | some t2 => simp [hc]

/-- On the cyclic forest, node emission for `A` and `B` exhausts any amount
of fuel: the source recursion `A → B → A → …` never returns. -/
theorem cyc_AB_none : ∀ n : Nat,
    (∀ depth, createNode cycMap n cycA depth = none)
    ∧ (∀ depth, createNode cycMap n cycB depth = none) := by
  intro n
  induction n with
  | zero => exact ⟨fun _ => rfl, fun _ => rfl⟩
  | succ n ih =>
    constructor
    · intro depth
      rw [createNode_succ]
      have hred : emitChildren (createNode cycMap n) cycMap cycA.children (depth + 1)
          = match createNode cycMap n cycB (depth + 1) with
            | some s => some (s ++ "")
            | none => none := rfl
      rw [hred, ih.2 (depth + 1)]
    · intro depth
      rw [createNode_succ]
      have hred : emitChildren (createNode cycMap n) cycMap cycB.children (depth + 1)
          = match createNode cycMap n cycA (depth + 1) with
            | some s => some (s ++ "")
            | none => none := rfl
      rw [hred, ih.1 (depth + 1)]

/-- Node emission from the display root `R` of the cyclic forest fails for
every fuel. -/
theorem cyc_R_none : ∀ fuel depth, createNode cycMap fuel cycR depth = none := by
  intro fuel depth
  cases fuel with
  | zero => rfl
  | succ n =>
    rw [createNode_succ]
    have hred : emitChildren (createNode cycMap n) cycMap cycR.children (depth + 1)
        = match createNode cycMap n cycA (depth + 1) with
          | some s => some (s ++ "")
          | none => none := rfl
    rw [hred, (cyc_AB_none n).1 (depth + 1)]

/-- C10: the renderer terminates on every forest whose resolved
parent-to-child relation is acyclic from the display roots (witnessed by a
rank function decreasing across resolved edges), given fuel above the root
ranks; and the recursion carries no cycle guard, so on a forest with a
name-resolved cycle reachable from a display root (`R → A → B → A`) no
amount of fuel makes it return — acyclicity is a necessary precondition. -/
theorem c10_renderer_termination :
    (∀ (components : List ComponentInfo) (rank : ComponentInfo → Nat) (fuel : Nat),
       (∀ c child c',
          RReach (components.map (fun c => (c.name, c))) (displayRoots components) c →
          child ∈ c.children →
          mapFind (components.map (fun c => (c.name, c))) child.name = some c' →
          rank c' < rank c) →
       (∀ c ∈ displayRoots components, rank c < fuel) →
       (generateMermaidFlowchart components fuel).isSome = true)
    ∧ (∀ fuel : Nat, generateMermaidFlowchart cycForest fuel = none) := by
  constructor
  · intro components rank fuel hrank hroots
    unfold generateMermaidFlowchart buildChart
    have hr : (emitRoots (components.map (fun c => (c.name, c))) fuel
        (displayRoots components)).isSome = true := by
      apply emitRoots_isSome
      intro c hc
      exact createNode_isSome (components.map (fun c => (c.name, c)))
        (displayRoots components) rank hrank fuel c 0 (RReach.root hc) (hroots c hc)
    cases he : emitRoots (components.map (fun c => (c.name, c))) fuel
        (displayRoots components) with
    | none => rw [he] at hr; cases hr
    | some nodes => rfl
  · intro fuel
    have hroots : emitRoots cycMap fuel (displayRoots cycForest) = none := by
      have hdr : displayRoots cycForest = [cycR] := rfl
      rw [hdr]
      unfold emitRoots
      rw [cyc_R_none fuel 0]
    unfold generateMermaidFlowchart buildChart
    rw [show (cycForest.map (fun c => (c.name, c))) = cycMap from rfl, hroots]
    rfl

set_option maxRecDepth 10000 in
/-- Witness for C10 on the worked example's forest: its reachable resolved
relation has no edge at all (Home is not a key of the lookup map), so the
constant-zero rank decreases across it vacuously, and rendering with fuel 1
terminates. -/
theorem c10_witness : (generateMermaidFlowchart c4DemoForest 1).isSome = true := by
  have hnoedge : ∀ c, RReach (c4DemoForest.map (fun c => (c.name, c)))
      (displayRoots c4DemoForest) c →
      ∀ child ∈ c.children, ∀ c',
        mapFind (c4DemoForest.map (fun c => (c.name, c))) child.name = some c' →
        False := by
    intro c hre
    induction hre with
    | root hc =>
      rename_i c
      intro child hch c' hcc
      have hc1 : c ∈ [c4Btn] := hc
      have hceq : c = c4Btn := List.mem_singleton.mp hc1
      subst hceq
      have hch1 : child ∈ [c4Home] := hch
      have hcheq : child = c4Home := List.mem_singleton.mp hch1
      subst hcheq
      have hnone : mapFind (c4DemoForest.map (fun c => (c.name, c)))
          c4Home.name = none := rfl
      rw [hnone] at hcc
      cases hcc
    | step hre' hch' hcc' ih =>
      intro child hch c' hcc
      exact ih _ hch' _ hcc'
  apply c10_renderer_termination.1 c4DemoForest (fun _ => 0) 1
  · intro c child c' hre hch hcc
    exact absurd hcc (fun h => hnoedge c hre child hch c' h)
  · intro c _
    exact Nat.zero_lt_one

end UIFlow
